import Mathlib

/-!
Verification of the graph-command compilation engine of
collectd-graph-generator against its specification.

The definitions below are a shallow embedding of the Rust sources:
  src/rrdtool/rrdtool.rs         (Rrdtool, parse_input_path, get_output_filename)
  src/rrdtool/graph_arguments.rs (GraphArguments, push, build_graph_def/line)
  src/processes/processes.rs     (Processes plugin: enter_plugin, with_process_rss)
  src/memory/memory.rs           (Memory plugin: enter_plugin, verify_data_files_exist)
  src/memory/memory_type.rs      (MemoryType)
Filesystem and remote-shell effects are parametrised by an explicit
environment record; fallible code returns Option or a result variant that
distinguishes structured errors (anyhow bail) from aborts (assert / unwrap
panics).
-/

namespace CGG

/-- Enum Target from src/rrdtool/rrdtool.rs: local or remote data source. -/
inductive Target where
  | Local : Target
  | Remote : Target
deriving DecidableEq, Repr

/-- Outcome of a plugin run: ok (carrying the updated state), a structured
error produced by an anyhow bail, or an abnormal abort produced by an
assert or unwrap panic. -/
inductive PluginResult (α : Type) where
  | ok : α → PluginResult α
  | err : String → PluginResult α
  | panic : String → PluginResult α
deriving DecidableEq, Repr

/-- Whether the run result is a structured error (bail), as opposed to an
ok result or an abnormal abort. -/
def PluginResult.isStructuredErr : PluginResult α → Bool
  | .err _ => true
  | _ => false

/-- Rrdtool::COLORS from src/rrdtool/rrdtool.rs: the fixed color palette. -/
def COLORS : List String := [
    "#e6194b", "#3cb44b", "#ffe119", "#4363d8", "#f58231", "#911eb4", "#46f0f0", "#f032e6",
    "#bcf60c", "#fabebe", "#008080", "#e6beff", "#9a6324", "#800000", "#aaffc3", "#808000",
    "#ffd8b1", "#000075", "#808080", "#000000"]

/-- std::path::Path::join as used by the sources: append a relative
component, inserting a separator unless one is already present. -/
def pathJoin (a b : String) : String :=
  if a = "" then b
  else if a.toList.getLast? = some '/' then a ++ b
  else a ++ "/" ++ b

/-- str::split_whitespace().next() from push in graph_arguments.rs: the
first whitespace-delimited token of a string, none when there is no token
(in which case the source unwrap panics). -/
def firstWord? (s : String) : Option String :=
  match (s.toList.dropWhile (fun c => c.isWhitespace)).takeWhile (fun c => !c.isWhitespace) with
  | [] => none
  | l => some ⟨l⟩

/-- GraphArguments from src/rrdtool/graph_arguments.rs. -/
structure GraphArguments where
  target : Target
  args : List (List String)
deriving DecidableEq, Repr

/-- GraphArguments::new. -/
def GraphArguments.new (t : Target) : GraphArguments := ⟨t, []⟩

/-- GraphArguments::new_graph: append an empty file slot. -/
def GraphArguments.new_graph (g : GraphArguments) : GraphArguments :=
  { g with args := g.args ++ [[]] }

/-- Vec::push on the last slot of the 2D argument vector
(args.last_mut().unwrap().push(x) in the source); on an empty outer vector
it creates a singleton slot, matching the guard in push. -/
def appendLast (x : String) : List (List String) → List (List String)
  | [] => [[x]]
  | [ys] => [ys ++ [x]]
  | ys :: yss => ys :: appendLast x yss

/-- GraphArguments::build_graph_def: the DEF argument, with the source
path quoted exactly when the target is remote. -/
def build_graph_def (t : Target) (unique_name path : String) : String :=
  "DEF:" ++ unique_name ++ "="
    ++ (match t with | .Local => "" | .Remote => "\"")
    ++ path
    ++ (match t with | .Local => "" | .Remote => "\"")
    ++ ":value:AVERAGE"

/-- GraphArguments::build_graph_line: the LINE argument. -/
def build_graph_line (unique_name legend_name color : String) (thickness : Nat) : String :=
  "LINE" ++ Nat.repr thickness ++ ":" ++ unique_name ++ color ++ ":\"" ++ legend_name ++ "\""

/-- GraphArguments::push: build the DEF/LINE pair for one series and append
it to the current (last) slot, creating a slot when none exists. Returns
none exactly when the source would panic (legend name with no token). -/
def GraphArguments.push (g : GraphArguments) (legend_name color : String) (thickness : Nat)
    (path : String) : Option GraphArguments :=
  match firstWord? legend_name with
  | none => none
  | some w =>
    let d := build_graph_def g.target w path
    let l := build_graph_line w legend_name color thickness
    let args0 := if g.args = [] then [[]] else g.args
    some { g with args := appendLast l (appendLast d args0) }

/-- Rrdtool from src/rrdtool/rrdtool.rs. -/
structure Rrdtool where
  target : Target
  input_dir : String
  command : String
  subcommand : String
  output_filename : String
  common_args : List String
  graph_args : GraphArguments
  username : Option String
  hostname : Option String
  remote_filename : Option String
deriving DecidableEq, Repr

/-- Greedy split for the first capture of regex (.*)@(.*):(.*) under
leftmost-first semantics: split at the last at-sign that still has a colon
somewhere after it; none when the regex .*@.*:.* does not match. -/
def splitUserRest : List Char → Option (List Char × List Char)
  | [] => none
  | x :: rest =>
    match splitUserRest rest with
    | some (b, a) => some (x :: b, a)
    | none => if x = '@' ∧ rest.contains ':' then some ([], rest) else none

/-- Greedy split at the last occurrence of a character, for the second and
third captures of (.*)@(.*):(.*) and for rfind in get_output_filename. -/
def splitAtLast (c : Char) : List Char → Option (List Char × List Char)
  | [] => none
  | x :: rest =>
    match splitAtLast c rest with
    | some (b, a) => some (x :: b, a)
    | none => if x = c then some ([], rest) else none

/-- Match of the regex .*@.*:.* from parse_input_path: some at-sign with a
colon somewhere after it. -/
def hasAtThenColon : List Char → Bool
  | [] => false
  | c :: rest => (c = '@' && rest.contains ':') || hasAtThenColon rest

/-- Rrdtool::parse_input_path: classify the input locator string as remote
(user at host colon path, captured greedily) or local (kept verbatim). -/
def parse_input_path (input : String) : Target × String × Option String × Option String :=
  match splitUserRest input.toList with
  | some (user, rest) =>
    match splitAtLast ':' rest with
    | some (host, path) => (Target.Remote, ⟨path⟩, some ⟨user⟩, some ⟨host⟩)
    | none => (Target.Local, input, none, none)
  | none => (Target.Local, input, none, none)

/-- Rrdtool::new. -/
def Rrdtool.new (input_dir : String) : Rrdtool :=
  match parse_input_path input_dir with
  | (t, dir, u, h) =>
    { target := t, input_dir := dir, command := "rrdtool", subcommand := "",
      output_filename := "", common_args := [], graph_args := GraphArguments.new t,
      username := u, hostname := h, remote_filename := none }

/-- Rrdtool::with_output_file. -/
def Rrdtool.with_output_file (rrd : Rrdtool) (output : String) : Rrdtool :=
  match rrd.target with
  | .Local => { rrd with output_filename := output }
  | .Remote =>
    { { rrd with output_filename := output } with remote_filename := some "/tmp/cgg-out.png" }

/-- Rrdtool::get_output_filename: with exactly one slot the caller filename
is used unchanged; otherwise the suffix underscore-(index+1) is inserted
immediately before the last dot. None when the source rfind unwrap would
panic (no dot in the filename). -/
def get_output_filename? (rrd : Rrdtool) (index : Nat) : Option String :=
  match rrd.graph_args.args.length with
  | 1 => some rrd.output_filename
  | _ =>
    match splitAtLast '.' rrd.output_filename.toList with
    | some (before, after) =>
      some (⟨before⟩ ++ "_" ++ Nat.repr (index + 1) ++ "." ++ ⟨after⟩)
    | none => none

/-- ProcessesData from src/processes/processes.rs. -/
structure ProcessesData where
  max_processes : Nat
  processes_to_draw : Option (List String)

/-- str::strip_prefix as used when enumerating process directories. -/
def dropPre (p s : String) : Option String :=
  if p.toList.isPrefixOf s.toList then some ⟨s.toList.drop p.toList.length⟩ else none

/-- Rrdtool::get_processes_names_from_directory, parametrised by the
directory listing: keep entries of the form processes-(name), stripped. -/
def get_processes_names (entries : List String) : List String :=
  entries.filterMap (dropPre "processes-")

/-- Rrdtool::filter_processes: with an allow-list, keep exactly the
discovered names contained verbatim in the list. -/
def filter_processes (processes : List String) (processes_to_draw : Option (List String)) :
    List String :=
  match processes_to_draw with
  | none => processes
  | some toDraw => processes.filter (fun p => toDraw.contains p)

/-- Rrdtool::with_process_rss: open a new slot when the slot count does not
yet exceed the chunk index, then push the series for one process (thickness
3). None when push would panic. -/
def with_process_rss (rrd : Rrdtool) (input_dir process color : String)
    (graph_args_no : Nat) : Option Rrdtool :=
  let path := pathJoin (pathJoin input_dir ("processes-" ++ process)) "ps_rss.rrd"
  let rrd1 := if rrd.graph_args.args.length ≤ graph_args_no
              then { rrd with graph_args := rrd.graph_args.new_graph } else rrd
  (rrd1.graph_args.push process color 3 path).map fun ga => { rrd1 with graph_args := ga }

/-- Inner loop of the Processes enter_plugin for one chunk: walk the chunk
with a color counter that starts at 0. The source indexes COLORS[color]
directly; color stays below the palette size because the chunk length is
bounded by the (asserted) process count, so getD never takes its default
on reachable inputs. -/
def chunkGo (i : Nat) : Rrdtool → List String → Nat → Option Rrdtool
  | rrd, [], _ => some rrd
  | rrd, p :: rest, color =>
    match with_process_rss rrd rrd.input_dir p (COLORS.getD color "") i with
    | some rrd2 => chunkGo i rrd2 rest (color + 1)
    | none => none

/-- Outer loop of the Processes enter_plugin: chunk index i runs while fuel
remains, each chunk being processes[i*m .. i*m+m). -/
def runChunksFrom (processes : List String) (m : Nat) : Rrdtool → Nat → Nat → Option Rrdtool
  | rrd, _, 0 => some rrd
  | rrd, i, fuel + 1 =>
    match chunkGo i rrd ((processes.drop (i * m)).take m) 0 with
    | some rrd2 => runChunksFrom processes m rrd2 (i + 1) fuel
    | none => none

/-- The loop count of the Processes enter_plugin, ceil(len / m). The source
computes this with f64 ceil, which is exact here: the assert bounds len by
the palette size (20), so the quotient is never misrounded; for m = 0 the
f64 path yields a huge loop count whose every chunk is empty, leaving the
state untouched exactly as 0 loops do. -/
def processesLoops (len m : Nat) : Nat :=
  if m = 0 then 0 else (len + m - 1) / m

/-- Processes enter_plugin from src/processes/processes.rs, parametrised by
the directory listing. The too-many-processes check is an assert in the
source, hence a panic, not a structured error. -/
def enter_plugin_processes (rrd : Rrdtool) (entries : List String) (data : ProcessesData) :
    PluginResult Rrdtool :=
  let processes := get_processes_names entries
  if processes.length = 0 then .err "Couldn't find any processes!"
  else
    let procs := filter_processes processes data.processes_to_draw
    if procs.length < COLORS.length then
      match runChunksFrom procs data.max_processes rrd 0
          (processesLoops procs.length data.max_processes) with
      | some r => .ok r
      | none => .panic "called Option.unwrap on a None value"
    else .panic "Too many processes! We are running out of colors to proceed."

/-- MemoryType from src/memory/memory_type.rs. -/
inductive MemoryType where
  | Buffered | Cached | Free | SlabRecl | SlabUnrecl | Used
deriving DecidableEq, Repr

/-- MemoryType::to_filename. -/
def MemoryType.to_filename : MemoryType → String
  | .Buffered => "memory-buffered.rrd"
  | .Cached => "memory-cached.rrd"
  | .Free => "memory-free.rrd"
  | .SlabRecl => "memory-slab_recl.rrd"
  | .SlabUnrecl => "memory-slab_unrecl.rrd"
  | .Used => "memory-used.rrd"

/-- MemoryType::to_string (the legend name of the category). -/
def MemoryType.to_string : MemoryType → String
  | .Buffered => "buffered"
  | .Cached => "cached"
  | .Free => "free"
  | .SlabRecl => "slab_recl"
  | .SlabUnrecl => "slab_unrecl"
  | .Used => "used"

/-- The filesystem and remote-shell environment the Memory plugin reads:
local file existence, and the result of ls over the remote shell (none
when the remote listing itself fails). -/
structure Env where
  fileExists : String → Bool
  remoteLs : String → Option (List String)

/-- verify_data_files_exist_local from src/memory/memory.rs. -/
def verify_data_files_exist_local (env : Env) (memory_dir : String)
    (memory_types : List MemoryType) : PluginResult Unit :=
  if memory_types.all (fun mt => env.fileExists (pathJoin memory_dir mt.to_filename))
  then .ok ()
  else .err ("Some file for memory measurements doesn't exist in " ++ memory_dir)

/-- verify_data_files_exist_remote from src/memory/memory.rs (the error
message typo is the source's). -/
def verify_data_files_exist_remote (env : Env) (memory_dir : String)
    (memory_types : List MemoryType) : PluginResult Unit :=
  match env.remoteLs memory_dir with
  | none => .err ("Failed to list remote files in: " ++ memory_dir)
  | some files =>
    if memory_types.all (fun mt => files.contains mt.to_filename)
    then .ok ()
    else .err ("Some foile for memory measurements doesn't exist in " ++ memory_dir)

/-- verify_data_files_exist from src/memory/memory.rs. -/
def verify_data_files_exist (env : Env) (target : Target) (memory_dir : String)
    (memory_types : List MemoryType) (username hostname : Option String) : PluginResult Unit :=
  match target with
  | .Local => verify_data_files_exist_local env memory_dir memory_types
  | .Remote =>
    match username, hostname with
    | some _, some _ => verify_data_files_exist_remote env memory_dir memory_types
    | _, _ => .panic "called Option.unwrap on a None value"

/-- The push loop of the Memory enter_plugin: one series per category, in
list order, color COLORS[i], thickness 5. None when the source would panic
(palette index out of bounds). -/
def memPushAll (ga : GraphArguments) (memory_dir : String) :
    List MemoryType → Nat → Option GraphArguments
  | [], _ => some ga
  | mt :: rest, i =>
    match COLORS[i]? with
    | none => none
    | some c =>
      match ga.push mt.to_string c 5 (pathJoin memory_dir mt.to_filename) with
      | some ga2 => memPushAll ga2 memory_dir rest (i + 1)
      | none => none

/-- Memory enter_plugin from src/memory/memory.rs: verify every category's
backing file first, then open one new slot and push all categories into
it. Returns the state next to the outcome; on an error the verify step has
run before any mutation, so the incoming state is returned unchanged (on a
panic the process aborts and no state escapes). -/
def enter_plugin_memory (rrd : Rrdtool) (env : Env) (memory_types : List MemoryType) :
    Rrdtool × PluginResult Unit :=
  let memory_dir := pathJoin rrd.input_dir "memory"
  match verify_data_files_exist env rrd.target memory_dir memory_types
      rrd.username rrd.hostname with
  | .ok _ =>
    match memPushAll rrd.graph_args.new_graph memory_dir memory_types 0 with
    | some ga => ({ rrd with graph_args := ga }, .ok ())
    | none => (rrd, .panic "index out of bounds")
  | .err e => (rrd, .err e)
  | .panic e => (rrd, .panic e)

/-- The DEF/LINE pairs the Processes plugin is specified to append for one
chunk: palette colors restart at index c, thickness 3, sources under
(dir)/processes-(name)/ps_rss.rrd. -/
def expectedChunkArgs (t : Target) (dir : String) : List String → Nat → List String
  | [], _ => []
  | p :: rest, c =>
    build_graph_def t ((firstWord? p).getD "")
        (pathJoin (pathJoin dir ("processes-" ++ p)) "ps_rss.rrd")
    :: build_graph_line ((firstWord? p).getD "") p (COLORS.getD c "") 3
    :: expectedChunkArgs t dir rest (c + 1)

/-- The DEF/LINE pairs the Memory plugin is specified to append: literal
syntax per category, colors in list order, thickness 5. -/
def expectedMemoryArgs (dir : String) : List MemoryType → Nat → List String
  | [], _ => []
  | mt :: rest, i =>
    ("DEF:" ++ mt.to_string ++ "=" ++ pathJoin dir ("memory-" ++ mt.to_string ++ ".rrd")
      ++ ":value:AVERAGE")
    :: ("LINE5:" ++ mt.to_string ++ COLORS.getD i "" ++ ":\"" ++ mt.to_string ++ "\"")
    :: expectedMemoryArgs dir rest (i + 1)

/-- One push call's arguments, for reasoning about sequences of pushes. -/
structure PushInput where
  legend : String
  color : String
  thickness : Nat
  path : String
deriving DecidableEq, Repr

/-- A sequence of push calls on the accumulator, stopping at a panic. -/
def pushAll (g : GraphArguments) : List PushInput → Option GraphArguments
  | [] => some g
  | q :: rest =>
    match g.push q.legend q.color q.thickness q.path with
    | some g2 => pushAll g2 rest
    | none => none

/-- The flat list of DEF/LINE pairs a sequence of pushes produces, in
insertion order. -/
def expectedPairs (t : Target) : List PushInput → List String
  | [] => []
  | q :: rest =>
    build_graph_def t ((firstWord? q.legend).getD "") q.path
    :: build_graph_line ((firstWord? q.legend).getD "") q.legend q.color q.thickness
    :: expectedPairs t rest

/-- Modelled from the spec: re-parser for a generated DEF argument (the
repository has no parser of its own). Recovers the symbolic name bound by
DEF:(name)=... as the text between the DEF marker and the first equals
sign. -/
def parseDefName (s : String) : Option String :=
  if s.toList.take 4 = ['D', 'E', 'F', ':'] then
    let rest := s.toList.drop 4
    let name := rest.takeWhile (fun c => c != '=')
    if name.length < rest.length then some ⟨name⟩ else none
  else none

/-- Greedy split at the last occurrence of the two-character sequence a b,
used by the spec-modelled LINE re-parser to locate the quoted legend. -/
def splitAtLastSeq2 (a b : Char) : List Char → Option (List Char × List Char)
  | [] => none
  | [_] => none
  | x :: y :: rest =>
    match splitAtLastSeq2 a b (y :: rest) with
    | some (pre, post) => some (x :: pre, post)
    | none => if x = a ∧ y = b then some ([], rest) else none

/-- Modelled from the spec: re-parser for a generated LINE argument (the
repository has no parser of its own). Recovers, in order, the decimal
thickness text after the LINE marker, the symbolic name, the color (from
the first hash sign), and the quoted legend text. -/
def parseLineArgs (s : String) : Option (String × String × String × String) :=
  if s.toList.take 4 = ['L', 'I', 'N', 'E'] then
    let rest := s.toList.drop 4
    let tstr := rest.takeWhile (fun c => c != ':')
    match rest.drop tstr.length with
    | c :: rest2 =>
      if c = ':' then
        match rest2.getLast? with
        | some q =>
          if q = '"' then
            match splitAtLastSeq2 ':' '"' rest2.dropLast with
            | some (nc, legend) =>
              let name := nc.takeWhile (fun c => c != '#')
              some (⟨tstr⟩, ⟨name⟩, ⟨nc.drop name.length⟩, ⟨legend⟩)
            | none => none
          else none
        | none => none
      else none
    | [] => none
  else none

/-- Fixture: a local run with base output out.png and one file slot. -/
def sampleRrd1 : Rrdtool :=
  { (Rrdtool.new "/some/path").with_output_file "out.png" with
    graph_args := ⟨Target.Local, [[]]⟩ }

/-- Fixture: a local run with base output out.png and three file slots. -/
def sampleRrd3 : Rrdtool :=
  { (Rrdtool.new "/some/path").with_output_file "out.png" with
    graph_args := ⟨Target.Local, [[], [], []]⟩ }

/-- Fixture: a local run whose accumulator already holds one slot with one
argument, as if another provider had run first. -/
def sampleRrdSeed : Rrdtool :=
  { Rrdtool.new "/inp" with graph_args := ⟨Target.Local, [["X"]]⟩ }

/-! Helper lemmas about the list-level splitters and the accumulator. -/

theorem string_eq_iff_data (a b : String) : a = b ↔ a.data = b.data :=
  ⟨congrArg String.data, fun h => by cases a; cases b; cases h; rfl⟩

theorem takeWhile_middle (p : Char → Bool) (l1 l2 : List Char) (x : Char)
    (h : ∀ c ∈ l1, p c = true) (hx : p x = false) :
    (l1 ++ x :: l2).takeWhile p = l1 := by
  induction l1 with
  | nil => simp [List.takeWhile, hx]
  | cons c cs ih =>
    simp only [List.cons_append, List.takeWhile]
    rw [h c (by simp)]
    simp [ih (fun d hd => h d (by simp [hd]))]

theorem splitAtLast_none (c : Char) (l : List Char) (h : c ∉ l) :
    splitAtLast c l = none := by
  induction l with
  | nil => rfl
  | cons x rest ih =>
    simp only [splitAtLast, ih (fun hc => h (by simp [hc]))]
    rw [if_neg (fun hc => h (by simp [hc]))]

theorem splitAtLast_concat (c : Char) (b a : List Char) (h : c ∉ a) :
    splitAtLast c (b ++ c :: a) = some (b, a) := by
  induction b with
  | nil =>
    simp only [List.nil_append, splitAtLast, splitAtLast_none c a h]
    simp
  | cons x bs ih =>
    simp only [List.cons_append, splitAtLast, List.append_eq, ih]

theorem splitUserRest_none (l : List Char) (h : '@' ∉ l) :
    splitUserRest l = none := by
  induction l with
  | nil => rfl
  | cons x rest ih =>
    simp only [splitUserRest, ih (fun hc => h (by simp [hc]))]
    rw [if_neg (fun hc => h (by simp [hc.1]))]

theorem splitUserRest_concat (u r : List Char) (h : '@' ∉ r) (hc : ':' ∈ r) :
    splitUserRest (u ++ '@' :: r) = some (u, r) := by
  induction u with
  | nil =>
    simp only [List.nil_append, splitUserRest, splitUserRest_none r h]
    simpa using hc
  | cons x us ih =>
    simp only [List.cons_append, splitUserRest, List.append_eq, ih]

theorem appendLast_cons_cons (x : String) (ys zs : List String) (zss : List (List String)) :
    appendLast x (ys :: zs :: zss) = ys :: appendLast x (zs :: zss) := rfl

theorem appendLast_eq (x : String) (xss : List (List String)) (h : xss ≠ []) :
    appendLast x xss = xss.dropLast ++ [(xss.getLast?.getD []) ++ [x]] := by
  induction xss with
  | nil => exact absurd rfl h
  | cons ys yss ih =>
    cases yss with
    | nil => simp [appendLast]
    | cons zs zss =>
      rw [appendLast_cons_cons, ih (by simp)]
      simp [List.getLast?_cons_cons]

theorem appendLast_ne_nil (x : String) (xss : List (List String)) :
    appendLast x xss ≠ [] := by
  cases xss with
  | nil => simp [appendLast]
  | cons ys yss =>
    cases yss with
    | nil => simp [appendLast]
    | cons zs zss => simp [appendLast_cons_cons]

theorem push_eq_some (g : GraphArguments) (legend color path w : String) (th : Nat)
    (hw : firstWord? legend = some w) :
    g.push legend color th path =
      some ⟨g.target,
        g.args.dropLast ++ [(g.args.getLast?.getD []) ++
          [build_graph_def g.target w path, build_graph_line w legend color th]]⟩ := by
  cases hargs : g.args with
  | nil =>
    unfold GraphArguments.push
    rw [hw]
    dsimp only
    rw [hargs]
    simp [appendLast]
  | cons ys yss =>
    unfold GraphArguments.push
    rw [hw]
    dsimp only
    rw [hargs, if_neg (by simp)]
    rw [appendLast_eq _ _ (by simp : (ys :: yss : List (List String)) ≠ [])]
    rw [appendLast_eq _ _ (by simp)]
    simp [List.dropLast_concat, List.getLast?_concat, List.append_assoc]

theorem splitUserRest_eq_none_of_no_match (L : List Char) (h : hasAtThenColon L = false) :
    splitUserRest L = none := by
  induction L with
  | nil => rfl
  | cons x rest ih =>
    simp only [hasAtThenColon, Bool.or_eq_false_iff, Bool.and_eq_false_iff] at h
    simp only [splitUserRest, ih h.2]
    rw [if_neg]
    rintro ⟨hx, hcont⟩
    rcases h.1 with h1 | h1
    · simp [hx] at h1
    · simp_all

/-- C5: a locator of the shape user at host colon path resolves to a Remote
locator with user, host and path extracted exactly (paths may contain
slashes); a string with no at-then-colon pattern resolves to a Local
locator with the path unchanged; and username/hostname are present if and
only if the locator is Remote. -/
theorem C5_locator_resolution (user host path s : String)
    (hh : '@' ∉ host.toList) (hp1 : '@' ∉ path.toList) (hp2 : ':' ∉ path.toList)
    (hs : hasAtThenColon s.toList = false) :
    parse_input_path (user ++ "@" ++ host ++ ":" ++ path)
        = (Target.Remote, path, some user, some host)
    ∧ parse_input_path s = (Target.Local, s, none, none)
    ∧ ∀ t : String, ((parse_input_path t).2.2.1.isSome ∧ (parse_input_path t).2.2.2.isSome)
        ↔ (parse_input_path t).1 = Target.Remote := by
  refine ⟨?_, ?_, ?_⟩
  · have hdata : (user ++ "@" ++ host ++ ":" ++ path).toList
        = user.toList ++ '@' :: (host.toList ++ ':' :: path.toList) := by
      show (user ++ "@" ++ host ++ ":" ++ path).data
        = user.data ++ '@' :: (host.data ++ ':' :: path.data)
      have e1 : ("@" : String).data = ['@'] := rfl
      have e2 : (":" : String).data = [':'] := rfl
      simp [String.data_append, e1, e2]
    have hr1 : '@' ∉ host.toList ++ ':' :: path.toList := by
      intro hm
      rcases List.mem_append.mp hm with h1 | h2
      · exact hh h1
      · rcases List.mem_cons.mp h2 with h3 | h4
        · simp at h3
        · exact hp1 h4
    have hr2 : ':' ∈ host.toList ++ ':' :: path.toList := by simp
    unfold parse_input_path
    rw [hdata, splitUserRest_concat _ _ hr1 hr2]
    dsimp only
    rw [splitAtLast_concat _ _ _ hp2]
    rfl
  · unfold parse_input_path
    rw [splitUserRest_eq_none_of_no_match _ hs]
  · intro t
    simp only [parse_input_path, String.toList]
    cases h1 : splitUserRest t.data with
    | none => simp [h1]
    | some ur =>
      obtain ⟨u, r⟩ := ur
      cases h2 : splitAtLast ':' r with
      | none => simp [h1, h2]
      | some hp =>
        obtain ⟨hh2, pp⟩ := hp
        simp [h1, h2]

theorem C5_locator_resolution_witness :
    ('@' ∉ "localhost".toList ∧ '@' ∉ "/some/remote/path".toList
      ∧ ':' ∉ "/some/remote/path".toList
      ∧ hasAtThenColon "/some/local/path".toList = false)
    ∧ parse_input_path ("marcin" ++ "@" ++ "localhost" ++ ":" ++ "/some/remote/path")
        = (Target.Remote, "/some/remote/path", some "marcin", some "localhost")
    ∧ parse_input_path "/some/local/path" = (Target.Local, "/some/local/path", none, none) :=
  ⟨⟨by decide, by decide, by decide, by decide⟩,
    (C5_locator_resolution "marcin" "localhost" "/some/remote/path" "/some/local/path"
      (by decide) (by decide) (by decide) (by decide)).1,
    (C5_locator_resolution "marcin" "localhost" "/some/remote/path" "/some/local/path"
      (by decide) (by decide) (by decide) (by decide)).2.1⟩

/-- C3: with exactly one slot the compiled output target is the caller
filename unchanged; with any other slot count (in particular more than
one) the target of slot i is the filename with an underscore and i+1
inserted immediately before the last dot. -/
theorem C3_output_filename (rrd : Rrdtool) (i : Nat) (b a : List Char)
    (hsplit : rrd.output_filename.toList = b ++ '.' :: a) (hdot : '.' ∉ a) :
    (rrd.graph_args.args.length = 1 → get_output_filename? rrd i = some rrd.output_filename)
    ∧ (rrd.graph_args.args.length ≠ 1 →
        get_output_filename? rrd i
          = some (⟨b⟩ ++ "_" ++ Nat.repr (i + 1) ++ "." ++ ⟨a⟩)) := by
  constructor
  · intro h1
    unfold get_output_filename?
    rw [h1]
  · intro h1
    unfold get_output_filename?
    split
    · next heq => exact absurd heq h1
    · next => rw [hsplit, splitAtLast_concat _ _ _ hdot]

theorem C3_output_filename_witness :
    (sampleRrd3.output_filename.toList = "out".toList ++ '.' :: "png".toList
      ∧ '.' ∉ "png".toList
      ∧ sampleRrd3.graph_args.args.length ≠ 1
      ∧ sampleRrd1.graph_args.args.length = 1)
    ∧ get_output_filename? sampleRrd1 0 = some "out.png"
    ∧ get_output_filename? sampleRrd3 0 = some "out_1.png"
    ∧ get_output_filename? sampleRrd3 1 = some "out_2.png"
    ∧ get_output_filename? sampleRrd3 2 = some "out_3.png" :=
  ⟨⟨by decide, by decide, by decide, by decide⟩,
    (C3_output_filename sampleRrd1 0 "out".toList "png".toList (by decide) (by decide)).1
      (by decide),
    (C3_output_filename sampleRrd3 0 "out".toList "png".toList (by decide) (by decide)).2
      (by decide),
    (C3_output_filename sampleRrd3 1 "out".toList "png".toList (by decide) (by decide)).2
      (by decide),
    (C3_output_filename sampleRrd3 2 "out".toList "png".toList (by decide) (by decide)).2
      (by decide)⟩

theorem appendLast_get (x : String) : ∀ (xss : List (List String)) (i : Nat),
    i < xss.length →
    ∃ s s', xss[i]? = some s ∧ (appendLast x xss)[i]? = some s' ∧ s <+: s' := by
  intro xss
  induction xss with
  | nil => intro i h; simp at h
  | cons ys yss ih =>
    intro i h
    cases yss with
    | nil =>
      cases i with
      | zero => exact ⟨ys, ys ++ [x], rfl, rfl, List.prefix_append ys [x]⟩
      | succ j => simp at h
    | cons zs zss =>
      cases i with
      | zero => exact ⟨ys, ys, rfl, by rw [appendLast_cons_cons]; simp, List.prefix_refl ys⟩
      | succ j =>
        obtain ⟨s, s', hs, hs', hp⟩ := ih j (by simpa using h)
        exact ⟨s, s', by simpa using hs, by rw [appendLast_cons_cons]; simpa using hs', hp⟩

theorem appendLast_length (x : String) : ∀ xss : List (List String),
    (appendLast x xss).length = max 1 xss.length := by
  intro xss
  induction xss with
  | nil => simp [appendLast]
  | cons ys yss ih =>
    cases yss with
    | nil => simp [appendLast]
    | cons zs zss =>
      rw [appendLast_cons_cons]
      simp only [List.length_cons] at ih ⊢
      omega

theorem pushAll_single_slot (t : Target) : ∀ (inputs : List PushInput) (acc : List String),
    (∀ q ∈ inputs, (firstWord? q.legend).isSome) →
    pushAll ⟨t, [acc]⟩ inputs = some ⟨t, [acc ++ expectedPairs t inputs]⟩ := by
  intro inputs
  induction inputs with
  | nil => intro acc h; simp [pushAll, expectedPairs]
  | cons q rest ih =>
    intro acc h
    obtain ⟨w, hw⟩ := Option.isSome_iff_exists.mp (h q (by simp))
    unfold pushAll
    rw [push_eq_some _ _ _ _ _ _ hw]
    dsimp only
    have hsl : (([acc] : List (List String)).dropLast ++
        [(([acc] : List (List String)).getLast?.getD []) ++
          [build_graph_def t w q.path,
           build_graph_line w q.legend q.color q.thickness]])
        = [acc ++ [build_graph_def t w q.path,
                   build_graph_line w q.legend q.color q.thickness]] := by simp
    rw [hsl, ih _ (fun p hp => h p (by simp [hp]))]
    simp [expectedPairs, hw, List.append_assoc]

/-- C6: a push whose legend has a first whitespace-delimited token w
appends to the current slot exactly the pair
DEF:w=(path):value:AVERAGE (path double-quoted exactly when the target is
remote) and LINE(thickness):w(color):"(legend)", with the legend always
quoted. -/
theorem C6_push_pair (g : GraphArguments) (legend color path w : String) (th : Nat)
    (hw : firstWord? legend = some w) :
    ∃ g', g.push legend color th path = some g'
      ∧ g'.target = g.target
      ∧ g'.args = g.args.dropLast ++
          [(g.args.getLast?.getD []) ++
            ["DEF:" ++ w ++ "=" ++ (if g.target = Target.Remote then "\"" else "")
                ++ path ++ (if g.target = Target.Remote then "\"" else "")
                ++ ":value:AVERAGE",
             "LINE" ++ Nat.repr th ++ ":" ++ w ++ color ++ ":\"" ++ legend ++ "\""]] := by
  refine ⟨_, push_eq_some g legend color path w th hw, rfl, ?_⟩
  have hdef : build_graph_def g.target w path
      = "DEF:" ++ w ++ "=" ++ (if g.target = Target.Remote then "\"" else "")
          ++ path ++ (if g.target = Target.Remote then "\"" else "") ++ ":value:AVERAGE" := by
    cases hg : g.target <;> simp [build_graph_def]
  rw [hdef]
  rfl

theorem C6_push_pair_witness :
    firstWord? "rust language server" = some "rust"
    ∧ ∃ g', (GraphArguments.new Target.Local).push "rust language server" "#e6194b" 3
          "/inp/processes-rust language server/ps_rss.rrd" = some g'
        ∧ g'.target = Target.Local
        ∧ g'.args = [["DEF:rust=/inp/processes-rust language server/ps_rss.rrd:value:AVERAGE",
                      "LINE3:rust#e6194b:\"rust language server\""]] := by
  refine ⟨by decide, ?_⟩
  obtain ⟨g', h1, h2, h3⟩ := C6_push_pair (GraphArguments.new Target.Local)
    "rust language server" "#e6194b" "/inp/processes-rust language server/ps_rss.rrd"
    "rust" 3 (by decide)
  exact ⟨g', h1, h2, by rw [h3]; rfl⟩

/-- C7: pushing k series into a fresh accumulator with no intervening
new_graph lands every pair in slot 0 in insertion order; moreover push and
new_graph are append-only, preserving every stored slot at its index with
its stored arguments as a prefix. -/
theorem C7_append_only (t : Target) (inputs : List PushInput)
    (h1 : inputs ≠ []) (h2 : ∀ q ∈ inputs, (firstWord? q.legend).isSome) :
    (∃ g', pushAll (GraphArguments.new t) inputs = some g'
        ∧ g'.args = [expectedPairs t inputs])
    ∧ (∀ (g g' : GraphArguments) (legend color path : String) (th : Nat),
        g.push legend color th path = some g' →
        g.args.length ≤ g'.args.length ∧
        ∀ i, i < g.args.length →
          ∃ s s', g.args[i]? = some s ∧ g'.args[i]? = some s' ∧ s <+: s')
    ∧ (∀ g : GraphArguments, g.new_graph.args.length = g.args.length + 1
        ∧ ∀ i, i < g.args.length → g.new_graph.args[i]? = g.args[i]?) := by
  refine ⟨?_, ?_, ?_⟩
  · cases inputs with
    | nil => exact absurd rfl h1
    | cons q rest =>
      obtain ⟨w, hw⟩ := Option.isSome_iff_exists.mp (h2 q (by simp))
      unfold pushAll
      rw [push_eq_some _ _ _ _ _ _ hw]
      dsimp only
      have hsl : (GraphArguments.new t).args.dropLast ++
          [((GraphArguments.new t).args.getLast?.getD []) ++
            [build_graph_def (GraphArguments.new t).target w q.path,
             build_graph_line w q.legend q.color q.thickness]]
          = [[build_graph_def t w q.path,
              build_graph_line w q.legend q.color q.thickness]] := by
        simp [GraphArguments.new]
      rw [hsl]
      have ht : (GraphArguments.new t).target = t := rfl
      rw [ht, pushAll_single_slot t rest _ (fun p hp => h2 p (by simp [hp]))]
      exact ⟨_, rfl, by simp [expectedPairs, hw]⟩
  · intro g g' legend color path th hpush
    cases hw : firstWord? legend with
    | none =>
      unfold GraphArguments.push at hpush
      rw [hw] at hpush
      cases hpush
    | some w =>
      unfold GraphArguments.push at hpush
      rw [hw] at hpush
      dsimp only at hpush
      injection hpush with hg'
      constructor
      · rw [← hg']
        simp only [appendLast_length]
        split
        · next hnil => simp [hnil]
        · next => omega
      · intro i hi
        have hne : g.args ≠ [] := by
          intro hnil
          rw [hnil] at hi
          simp at hi
        rw [if_neg hne] at hg'
        obtain ⟨s, s1, hs, hs1, hp1⟩ := appendLast_get _ g.args i hi
        have hlen2 : i < (appendLast (build_graph_def g.target w path) g.args).length := by
          rw [appendLast_length]
          omega
        obtain ⟨s1', s2, hs1', hs2, hp2⟩ := appendLast_get _ _ i hlen2
        rw [hs1] at hs1'
        injection hs1' with he
        refine ⟨s, s2, hs, ?_, hp1.trans (he ▸ hp2)⟩
        rw [← hg']
        exact hs2
  · intro g
    refine ⟨by simp [GraphArguments.new_graph], fun i hi => ?_⟩
    show (g.args ++ [[]])[i]? = g.args[i]?
    exact List.getElem?_append_left hi

theorem C7_append_only_witness :
    (([⟨"proc one", "#e6194b", 3, "/a/b.rrd"⟩,
       ⟨"proc two", "#3cb44b", 3, "/a/c.rrd"⟩] : List PushInput) ≠ []
      ∧ ∀ q ∈ ([⟨"proc one", "#e6194b", 3, "/a/b.rrd"⟩,
                ⟨"proc two", "#3cb44b", 3, "/a/c.rrd"⟩] : List PushInput),
          (firstWord? q.legend).isSome)
    ∧ ∃ g', pushAll (GraphArguments.new Target.Local)
          [⟨"proc one", "#e6194b", 3, "/a/b.rrd"⟩,
           ⟨"proc two", "#3cb44b", 3, "/a/c.rrd"⟩] = some g'
        ∧ g'.args = [expectedPairs Target.Local
            [⟨"proc one", "#e6194b", 3, "/a/b.rrd"⟩,
             ⟨"proc two", "#3cb44b", 3, "/a/c.rrd"⟩]] :=
  ⟨⟨by decide, by decide⟩,
    (C7_append_only Target.Local
      [⟨"proc one", "#e6194b", 3, "/a/b.rrd"⟩, ⟨"proc two", "#3cb44b", 3, "/a/c.rrd"⟩]
      (by decide) (by decide)).1⟩

theorem chunkGo_append_last (i : Nat) (rest : List String) :
    ∀ (rrd : Rrdtool) (c : Nat),
      rrd.graph_args.args ≠ [] → i < rrd.graph_args.args.length →
      (∀ p ∈ rest, (firstWord? p).isSome) →
      chunkGo i rrd rest c =
        some { rrd with graph_args :=
          ⟨rrd.graph_args.target,
           rrd.graph_args.args.dropLast ++
             [(rrd.graph_args.args.getLast?.getD []) ++
               expectedChunkArgs rrd.graph_args.target rrd.input_dir rest c]⟩ } := by
  induction rest with
  | nil =>
    intro rrd c h1 h2 h3
    have hid : rrd.graph_args.args.dropLast ++ [rrd.graph_args.args.getLast?.getD []]
        = rrd.graph_args.args := by
      rw [List.getLast?_eq_getLast _ h1]
      simp only [Option.getD_some]
      exact List.dropLast_append_getLast h1
    simp only [chunkGo, expectedChunkArgs, List.append_nil]
    rw [hid]
  | cons p rest ih =>
    intro rrd c h1 h2 h3
    obtain ⟨w, hw⟩ := Option.isSome_iff_exists.mp (h3 p (by simp))
    simp only [chunkGo]
    unfold with_process_rss
    rw [if_neg (by omega)]
    dsimp only
    rw [push_eq_some _ _ _ _ _ _ hw]
    dsimp only [Option.map]
    rw [ih _ (c + 1) (by simp) (by simp [List.length_dropLast]; omega)
        (fun q hq => h3 q (by simp [hq]))]
    simp [expectedChunkArgs, hw, List.dropLast_concat, List.getLast?_concat, List.append_assoc]

theorem chunkGo_new_slot (i : Nat) (p : String) (rest : List String) (rrd : Rrdtool) (c : Nat)
    (hlen : rrd.graph_args.args.length = i)
    (htok : ∀ q ∈ p :: rest, (firstWord? q).isSome) :
    chunkGo i rrd (p :: rest) c =
      some { rrd with graph_args :=
        ⟨rrd.graph_args.target,
         rrd.graph_args.args ++
           [expectedChunkArgs rrd.graph_args.target rrd.input_dir (p :: rest) c]⟩ } := by
  obtain ⟨w, hw⟩ := Option.isSome_iff_exists.mp (htok p (by simp))
  simp only [chunkGo]
  unfold with_process_rss
  rw [if_pos (by omega)]
  dsimp only
  rw [push_eq_some _ _ _ _ _ _ hw]
  dsimp only [Option.map]
  rw [chunkGo_append_last i rest _ (c + 1) (by simp [GraphArguments.new_graph])
      (by simp [GraphArguments.new_graph]; omega)
      (fun q hq => htok q (by simp [hq]))]
  simp [GraphArguments.new_graph, expectedChunkArgs, hw, List.dropLast_concat,
    List.getLast?_concat, List.append_assoc]

theorem runChunksFrom_fresh (procs : List String) (m : Nat)
    (htok : ∀ p ∈ procs, (firstWord? p).isSome) :
    ∀ (fuel i : Nat) (rrd : Rrdtool),
      rrd.graph_args.args.length = i →
      (∀ j, j < fuel → ((procs.drop ((i + j) * m)).take m) ≠ []) →
      runChunksFrom procs m rrd i fuel =
        some { rrd with graph_args :=
          ⟨rrd.graph_args.target,
           rrd.graph_args.args ++
             (List.range' i fuel).map (fun j =>
               expectedChunkArgs rrd.graph_args.target rrd.input_dir
                 ((procs.drop (j * m)).take m) 0)⟩ } := by
  intro fuel
  induction fuel with
  | zero =>
    intro i rrd hlen hne
    simp only [runChunksFrom, List.range'_zero, List.map_nil, List.append_nil]
  | succ fuel ih =>
    intro i rrd hlen hne
    have hne0 : ((procs.drop (i * m)).take m) ≠ [] := by
      have h0 := hne 0 (by omega)
      rwa [Nat.add_zero] at h0
    obtain ⟨p, rest, hchunk⟩ := List.exists_cons_of_ne_nil hne0
    simp only [runChunksFrom]
    rw [hchunk]
    rw [chunkGo_new_slot i p rest rrd 0 hlen
        (fun q hq => htok q (List.mem_of_mem_drop (List.mem_of_mem_take
          (by rw [hchunk]; exact hq))))]
    dsimp only
    rw [ih (i + 1) _ (by simp [hlen])
        (fun j hj => by
          have := hne (j + 1) (by omega)
          rwa [show (i + (j + 1)) * m = (i + 1 + j) * m by ring] at this)]
    simp [List.range'_succ, List.append_assoc, hchunk]

theorem runChunksFrom_add (procs : List String) (m : Nat) :
    ∀ (a b i : Nat) (rrd : Rrdtool),
      runChunksFrom procs m rrd i (a + b) =
        match runChunksFrom procs m rrd i a with
        | some r => runChunksFrom procs m r (i + a) b
        | none => none := by
  intro a
  induction a with
  | zero =>
    intro b i rrd
    rw [Nat.zero_add]
    show runChunksFrom procs m rrd i b
      = match some rrd with
        | some r => runChunksFrom procs m r (i + 0) b
        | none => none
    rw [Nat.add_zero]
  | succ a iha =>
    intro b i rrd
    rw [show a + 1 + b = (a + b) + 1 by omega]
    simp only [runChunksFrom]
    cases hch : chunkGo i rrd ((procs.drop (i * m)).take m) 0 with
    | none => rfl
    | some r2 =>
      dsimp only
      rw [iha b (i + 1) r2]
      cases hrc : runChunksFrom procs m r2 (i + 1) a with
      | none => rfl
      | some r =>
        dsimp only
        rw [show i + 1 + a = i + (a + 1) by omega]

theorem runChunksFrom_into_last (procs : List String) (m : Nat)
    (htok : ∀ p ∈ procs, (firstWord? p).isSome) :
    ∀ (fuel i : Nat) (rrd : Rrdtool),
      rrd.graph_args.args ≠ [] →
      i + fuel ≤ rrd.graph_args.args.length →
      runChunksFrom procs m rrd i fuel =
        some { rrd with graph_args :=
          ⟨rrd.graph_args.target,
           rrd.graph_args.args.dropLast ++
             [(rrd.graph_args.args.getLast?.getD []) ++
               ((List.range' i fuel).map (fun j =>
                 expectedChunkArgs rrd.graph_args.target rrd.input_dir
                   ((procs.drop (j * m)).take m) 0)).flatten]⟩ } := by
  intro fuel
  induction fuel with
  | zero =>
    intro i rrd h1 h2
    have hid : rrd.graph_args.args.dropLast ++ [rrd.graph_args.args.getLast?.getD []]
        = rrd.graph_args.args := by
      rw [List.getLast?_eq_getLast _ h1]
      simp only [Option.getD_some]
      exact List.dropLast_append_getLast h1
    simp only [runChunksFrom, List.range'_zero, List.map_nil, List.flatten_nil,
      List.append_nil]
    rw [hid]
  | succ fuel ih =>
    intro i rrd h1 h2
    simp only [runChunksFrom]
    rw [chunkGo_append_last i _ rrd 0 h1 (by omega)
        (fun q hq => htok q (List.mem_of_mem_drop (List.mem_of_mem_take hq)))]
    dsimp only
    have hlen1 : 0 < rrd.graph_args.args.length := List.length_pos.mpr h1
    rw [ih (i + 1) _ (by simp) (by simp [List.length_dropLast]; omega)]
    simp [List.range'_succ, List.append_assoc, List.dropLast_concat, List.getLast?_concat]

theorem loops_chunk_lt (n m j : Nat) (hm : 1 ≤ m) (hj : j < (n + m - 1) / m) :
    j * m < n := by
  have h1 : (j + 1) * m ≤ ((n + m - 1) / m) * m := Nat.mul_le_mul_right m (by omega)
  have h2 : ((n + m - 1) / m) * m ≤ n + m - 1 := Nat.div_mul_le_self _ _
  have h3 : (j + 1) * m = j * m + m := by ring
  omega

theorem loops_pos (n m : Nat) (hm : 1 ≤ m) (hn : 1 ≤ n) : 1 ≤ (n + m - 1) / m := by
  rw [Nat.le_div_iff_mul_le (by omega)]
  omega

theorem loops_last_chunk (n m : Nat) (hm : 1 ≤ m) (hn : 1 ≤ n) :
    n - ((n + m - 1) / m - 1) * m = if n % m = 0 then m else n % m := by
  have hq := Nat.div_add_mod n m
  have hr : n % m < m := Nat.mod_lt _ (by omega)
  set q := n / m with hqdef
  set r := n % m with hrdef
  by_cases h0 : r = 0
  · rw [if_pos h0]
    have hL : (n + m - 1) / m = q := by
      have he : n + m - 1 = m * q + (m - 1) := by omega
      rw [he, Nat.mul_add_div (by omega)]
      simp [Nat.div_eq_of_lt (by omega : m - 1 < m)]
    rw [hL]
    have hq1 : 1 ≤ q := by
      rcases Nat.eq_zero_or_pos q with hq0 | hq0
      · rw [hq0, Nat.mul_zero] at hq
        omega
      · exact hq0
    have e1 : (q - 1) * m = q * m - m := by rw [Nat.sub_mul, Nat.one_mul]
    have e2 : m * q = q * m := Nat.mul_comm m q
    have e3 : 1 * m ≤ q * m := Nat.mul_le_mul_right m hq1
    rw [Nat.one_mul] at e3
    omega
  · rw [if_neg h0]
    have hL : (n + m - 1) / m = q + 1 := by
      have hmul : m * (q + 1) = m * q + m := by ring
      have he : n + m - 1 = m * (q + 1) + (r - 1) := by omega
      rw [he, Nat.mul_add_div (by omega)]
      simp [Nat.div_eq_of_lt (by omega : r - 1 < m)]
    rw [hL]
    simp only [Nat.add_sub_cancel]
    have e2 : m * q = q * m := Nat.mul_comm m q
    omega

theorem expectedChunkArgs_length (t : Target) (dir : String) :
    ∀ (l : List String) (c : Nat), (expectedChunkArgs t dir l c).length = 2 * l.length := by
  intro l
  induction l with
  | nil => intro c; simp [expectedChunkArgs]
  | cons p rest ih =>
    intro c
    simp only [expectedChunkArgs, List.length_cons, ih]
    omega

theorem filter_processes_length_le (l : List String) (f : Option (List String)) :
    (filter_processes l f).length ≤ l.length := by
  cases f with
  | none => exact Nat.le_refl _
  | some toDraw => exact List.length_filter_le _ _

/-- C1: from an empty accumulator, with maxPerImage m at least 1 and n
post-filter processes, 1 <= n < palette size, the Processes provider
succeeds and produces exactly ceil(n/m) slots holding the consecutive
chunks of the discovery order; the last slot holds n mod m pairs (m when m
divides n), and inside every slot colors restart at palette index 0 with
thickness 3 (built into expectedChunkArgs). -/
theorem C1_processes_chunking (rrd : Rrdtool) (entries : List String) (data : ProcessesData)
    (procs : List String)
    (hempty : rrd.graph_args.args = [])
    (hm : 1 ≤ data.max_processes)
    (hproc : procs = filter_processes (get_processes_names entries) data.processes_to_draw)
    (hn1 : 1 ≤ procs.length) (hn2 : procs.length < COLORS.length)
    (htok : ∀ p ∈ procs, (firstWord? p).isSome) :
    ∃ r, enter_plugin_processes rrd entries data = .ok r
      ∧ r.graph_args.args =
          (List.range ((procs.length + data.max_processes - 1) / data.max_processes)).map
            (fun j => expectedChunkArgs rrd.graph_args.target rrd.input_dir
              ((procs.drop (j * data.max_processes)).take data.max_processes) 0)
      ∧ r.graph_args.args.length
          = (procs.length + data.max_processes - 1) / data.max_processes
      ∧ r.graph_args.args.getLast?.map List.length
          = some (2 * (if procs.length % data.max_processes = 0 then data.max_processes
                       else procs.length % data.max_processes)) := by
  have hpre : ¬ ((get_processes_names entries).length = 0) := by
    have hle := filter_processes_length_le (get_processes_names entries) data.processes_to_draw
    rw [← hproc] at hle
    omega
  have hchunknn : ∀ j, j < (procs.length + data.max_processes - 1) / data.max_processes →
      ((procs.drop ((0 + j) * data.max_processes)).take data.max_processes) ≠ [] := by
    intro j hj
    have hlt : j * data.max_processes < procs.length :=
      loops_chunk_lt procs.length data.max_processes j hm hj
    rw [Nat.zero_add]
    intro hnil
    have hz : ((procs.drop (j * data.max_processes)).take data.max_processes).length = 0 := by
      rw [hnil]; rfl
    rw [List.length_take, List.length_drop] at hz
    omega
  unfold enter_plugin_processes
  rw [if_neg hpre]
  dsimp only
  rw [← hproc, if_pos hn2]
  simp only [processesLoops]
  rw [if_neg (show ¬ data.max_processes = 0 by omega)]
  rw [runChunksFrom_fresh procs data.max_processes htok _ 0 rrd (by rw [hempty]; rfl)
      hchunknn]
  refine ⟨_, rfl, ?_, ?_, ?_⟩
  · dsimp only
    rw [hempty]
    simp only [List.nil_append]
    rw [← List.range_eq_range']
  · dsimp only
    rw [hempty]
    simp [List.length_range']
  · dsimp only
    rw [hempty]
    simp only [List.nil_append]
    rw [← List.range_eq_range']
    have hl1 : 1 ≤ (procs.length + data.max_processes - 1) / data.max_processes :=
      loops_pos procs.length data.max_processes hm hn1
    obtain ⟨k, hk⟩ : ∃ k, (procs.length + data.max_processes - 1) / data.max_processes
        = k + 1 :=
      ⟨(procs.length + data.max_processes - 1) / data.max_processes - 1, by omega⟩
    rw [hk, List.range_succ, List.map_append, List.map_cons, List.map_nil,
      List.getLast?_concat, Option.map_some']
    have hchlen : procs.length - k * data.max_processes
        = if procs.length % data.max_processes = 0 then data.max_processes
          else procs.length % data.max_processes := by
      have hlast := loops_last_chunk procs.length data.max_processes hm hn1
      rw [hk] at hlast
      simpa using hlast
    have hmin : min data.max_processes (procs.length - k * data.max_processes)
        = procs.length - k * data.max_processes := by
      rw [hchlen]
      split
      · exact Nat.min_self _
      · exact Nat.min_eq_right (le_of_lt (Nat.mod_lt _ (by omega)))
    rw [expectedChunkArgs_length, List.length_take, List.length_drop, hmin, hchlen]

theorem C1_processes_chunking_witness :
    ((Rrdtool.new "/inp").graph_args.args = []
      ∧ 1 ≤ (2 : Nat)
      ∧ (["firefox", "chrome", "dolphin"] : List String)
          = filter_processes
              (get_processes_names ["processes-firefox", "processes-chrome",
                "processes-dolphin"]) none
      ∧ 1 ≤ (["firefox", "chrome", "dolphin"] : List String).length
      ∧ (["firefox", "chrome", "dolphin"] : List String).length < COLORS.length
      ∧ ∀ p ∈ (["firefox", "chrome", "dolphin"] : List String), (firstWord? p).isSome)
    ∧ ∃ r, enter_plugin_processes (Rrdtool.new "/inp")
          ["processes-firefox", "processes-chrome", "processes-dolphin"] ⟨2, none⟩ = .ok r
        ∧ r.graph_args.args =
            (List.range ((3 + 2 - 1) / 2)).map
              (fun j => expectedChunkArgs (Rrdtool.new "/inp").graph_args.target
                (Rrdtool.new "/inp").input_dir
                (((["firefox", "chrome", "dolphin"] : List String).drop (j * 2)).take 2) 0)
        ∧ r.graph_args.args.length = (3 + 2 - 1) / 2
        ∧ r.graph_args.args.getLast?.map List.length
            = some (2 * (if (3 : Nat) % 2 = 0 then 2 else 3 % 2)) :=
  ⟨⟨by decide, by decide, by decide, by decide, by decide, by decide⟩,
    C1_processes_chunking (Rrdtool.new "/inp")
      ["processes-firefox", "processes-chrome", "processes-dolphin"] ⟨2, none⟩
      ["firefox", "chrome", "dolphin"] (by decide) (by decide) (by decide) (by decide)
      (by decide) (by decide)⟩

/-- C10: when s >= 1 slots already exist, the Processes provider opens a
new slot for chunk i only once the slot count is at most i: the first
min(s, chunks) chunks are pushed into the existing last slot (slot s-1),
earlier slots are untouched, and only the remaining chunks get fresh
slots, giving max s chunks slots in total. -/
theorem C10_processes_existing_slots (rrd : Rrdtool) (entries : List String)
    (data : ProcessesData) (procs : List String)
    (hne : rrd.graph_args.args ≠ [])
    (hm : 1 ≤ data.max_processes)
    (hproc : procs = filter_processes (get_processes_names entries) data.processes_to_draw)
    (hn1 : 1 ≤ procs.length) (hn2 : procs.length < COLORS.length)
    (htok : ∀ p ∈ procs, (firstWord? p).isSome) :
    ∃ r, enter_plugin_processes rrd entries data = .ok r
      ∧ r.graph_args.args =
          rrd.graph_args.args.dropLast
          ++ ((rrd.graph_args.args.getLast?.getD []) ++
              ((List.range' 0 (min rrd.graph_args.args.length
                  ((procs.length + data.max_processes - 1) / data.max_processes))).map
                (fun j => expectedChunkArgs rrd.graph_args.target rrd.input_dir
                  ((procs.drop (j * data.max_processes)).take data.max_processes) 0)).flatten)
          :: (List.range' rrd.graph_args.args.length
                ((procs.length + data.max_processes - 1) / data.max_processes
                  - rrd.graph_args.args.length)).map
              (fun j => expectedChunkArgs rrd.graph_args.target rrd.input_dir
                ((procs.drop (j * data.max_processes)).take data.max_processes) 0)
      ∧ r.graph_args.args.length
          = max rrd.graph_args.args.length
              ((procs.length + data.max_processes - 1) / data.max_processes) := by
  have hpre : ¬ ((get_processes_names entries).length = 0) := by
    have hle := filter_processes_length_le (get_processes_names entries) data.processes_to_draw
    rw [← hproc] at hle
    omega
  have hs1 : 0 < rrd.graph_args.args.length := List.length_pos.mpr hne
  unfold enter_plugin_processes
  rw [if_neg hpre]
  dsimp only
  rw [← hproc, if_pos hn2]
  simp only [processesLoops]
  rw [if_neg (show ¬ data.max_processes = 0 by omega)]
  by_cases hcase : (procs.length + data.max_processes - 1) / data.max_processes
      ≤ rrd.graph_args.args.length
  · rw [runChunksFrom_into_last procs data.max_processes htok _ 0 rrd hne (by omega)]
    refine ⟨_, rfl, ?_, ?_⟩
    · dsimp only
      rw [Nat.min_eq_right hcase,
        show (procs.length + data.max_processes - 1) / data.max_processes
            - rrd.graph_args.args.length = 0 by omega]
      simp
    · dsimp only
      rw [Nat.max_eq_left hcase]
      simp only [List.length_append, List.length_dropLast, List.length_cons,
        List.length_nil]
      omega
  · rw [show (procs.length + data.max_processes - 1) / data.max_processes
        = rrd.graph_args.args.length
          + ((procs.length + data.max_processes - 1) / data.max_processes
              - rrd.graph_args.args.length) by omega]
    rw [runChunksFrom_add]
    rw [runChunksFrom_into_last procs data.max_processes htok _ 0 rrd hne (by omega)]
    dsimp only
    rw [runChunksFrom_fresh procs data.max_processes htok _ _ _
        (by simp [List.length_dropLast]; omega)
        (fun j hj => by
          have hlt : (0 + rrd.graph_args.args.length + j) * data.max_processes
              < procs.length := by
            apply loops_chunk_lt procs.length data.max_processes _ hm
            omega
          intro hnil
          have hz : ((procs.drop ((0 + rrd.graph_args.args.length + j)
              * data.max_processes)).take data.max_processes).length = 0 := by
            rw [hnil]; rfl
          rw [List.length_take, List.length_drop] at hz
          omega)]
    dsimp only
    refine ⟨_, rfl, ?_, ?_⟩
    · rw [Nat.min_eq_left (by omega), Nat.zero_add]
      simp [List.append_assoc]
    · simp only [List.length_append, List.length_dropLast, List.length_cons,
        List.length_nil, List.length_map, List.length_range']
      omega

theorem C10_processes_existing_slots_witness :
    (sampleRrdSeed.graph_args.args ≠ []
      ∧ 1 ≤ (2 : Nat)
      ∧ (["firefox", "chrome", "dolphin"] : List String)
          = filter_processes
              (get_processes_names ["processes-firefox", "processes-chrome",
                "processes-dolphin"]) none
      ∧ 1 ≤ (["firefox", "chrome", "dolphin"] : List String).length
      ∧ (["firefox", "chrome", "dolphin"] : List String).length < COLORS.length
      ∧ ∀ p ∈ (["firefox", "chrome", "dolphin"] : List String), (firstWord? p).isSome)
    ∧ ∃ r, enter_plugin_processes sampleRrdSeed
          ["processes-firefox", "processes-chrome", "processes-dolphin"] ⟨2, none⟩ = .ok r
        ∧ r.graph_args.args =
            sampleRrdSeed.graph_args.args.dropLast
            ++ ((sampleRrdSeed.graph_args.args.getLast?.getD []) ++
                ((List.range' 0 (min sampleRrdSeed.graph_args.args.length 2)).map
                  (fun j => expectedChunkArgs sampleRrdSeed.graph_args.target
                    sampleRrdSeed.input_dir
                    (((["firefox", "chrome", "dolphin"] : List String).drop (j * 2)).take 2)
                    0)).flatten)
            :: (List.range' sampleRrdSeed.graph_args.args.length
                  (2 - sampleRrdSeed.graph_args.args.length)).map
                (fun j => expectedChunkArgs sampleRrdSeed.graph_args.target
                  sampleRrdSeed.input_dir
                  (((["firefox", "chrome", "dolphin"] : List String).drop (j * 2)).take 2) 0)
        ∧ r.graph_args.args.length = max sampleRrdSeed.graph_args.args.length 2 :=
  ⟨⟨by decide, by decide, by decide, by decide, by decide, by decide⟩,
    C10_processes_existing_slots sampleRrdSeed
      ["processes-firefox", "processes-chrome", "processes-dolphin"] ⟨2, none⟩
      ["firefox", "chrome", "dolphin"] (by decide) (by decide) (by decide) (by decide)
      (by decide) (by decide)⟩

/-- C2 counterexample: with 20 discovered processes and a palette of 20
colors, the Processes plugin aborts through the source assert (a panic),
and the outcome is not a structured error. -/
theorem C2_too_many_processes_counterexample :
    enter_plugin_processes (Rrdtool.new "/inp")
        ((List.range 20).map (fun i => "processes-p" ++ Nat.repr i)) ⟨20, none⟩
      = .panic "Too many processes! We are running out of colors to proceed."
    ∧ (enter_plugin_processes (Rrdtool.new "/inp")
        ((List.range 20).map (fun i => "processes-p" ++ Nat.repr i))
        ⟨20, none⟩).isStructuredErr = false := by
  exact ⟨by decide, by decide⟩

/-- C2 amended: whenever the post-filter process count reaches the palette
size, the Processes plugin stops before building any graph arguments, but
through the source assert — an abnormal abort carrying the too-many
message — rather than a structured error value. -/
theorem C2_too_many_processes_assert (rrd : Rrdtool) (entries : List String)
    (data : ProcessesData)
    (hpre : get_processes_names entries ≠ [])
    (hover : COLORS.length
      ≤ (filter_processes (get_processes_names entries) data.processes_to_draw).length) :
    enter_plugin_processes rrd entries data
      = .panic "Too many processes! We are running out of colors to proceed." := by
  unfold enter_plugin_processes
  rw [if_neg (fun h => hpre (List.length_eq_zero.mp h))]
  dsimp only
  rw [if_neg (by omega)]

theorem C2_too_many_processes_assert_witness :
    (get_processes_names ((List.range 20).map (fun i => "processes-p" ++ Nat.repr i)) ≠ []
      ∧ COLORS.length
          ≤ (filter_processes
              (get_processes_names
                ((List.range 20).map (fun i => "processes-p" ++ Nat.repr i)))
              (ProcessesData.mk 20 none).processes_to_draw).length)
    ∧ enter_plugin_processes (Rrdtool.new "/inp")
        ((List.range 20).map (fun i => "processes-p" ++ Nat.repr i)) ⟨20, none⟩
      = .panic "Too many processes! We are running out of colors to proceed." :=
  ⟨⟨by decide, by decide⟩,
    C2_too_many_processes_assert (Rrdtool.new "/inp")
      ((List.range 20).map (fun i => "processes-p" ++ Nat.repr i)) ⟨20, none⟩
      (by decide) (by decide)⟩

/-- C4: a Memory run with any requested category's backing file absent —
checked locally via file existence or remotely via the directory listing —
returns the missing-data-file error and leaves the accumulator exactly as
it was: no slot and no draw instruction is added. -/
theorem C4_memory_missing_file (rrd : Rrdtool) (env : Env) (memory_types : List MemoryType)
    (habs : (rrd.target = Target.Local ∧ ∃ mt ∈ memory_types,
        env.fileExists (pathJoin (pathJoin rrd.input_dir "memory") mt.to_filename) = false)
      ∨ (rrd.target = Target.Remote ∧ rrd.username.isSome ∧ rrd.hostname.isSome
          ∧ ∃ files, env.remoteLs (pathJoin rrd.input_dir "memory") = some files
            ∧ ∃ mt ∈ memory_types, files.contains mt.to_filename = false)) :
    ∃ msg, enter_plugin_memory rrd env memory_types = (rrd, .err msg) := by
  rcases habs with ⟨htgt, mt, hmem, hfe⟩ | ⟨htgt, hu, hh, files, hls, mt, hmem, hcont⟩
  · refine ⟨"Some file for memory measurements doesn't exist in "
      ++ pathJoin rrd.input_dir "memory", ?_⟩
    unfold enter_plugin_memory verify_data_files_exist
    rw [htgt]
    dsimp only
    unfold verify_data_files_exist_local
    rw [if_neg (fun hall => by
      have hx := List.all_eq_true.mp hall mt hmem
      rw [hfe] at hx
      cases hx)]
  · refine ⟨"Some foile for memory measurements doesn't exist in "
      ++ pathJoin rrd.input_dir "memory", ?_⟩
    obtain ⟨u, hu'⟩ := Option.isSome_iff_exists.mp hu
    obtain ⟨hn, hh'⟩ := Option.isSome_iff_exists.mp hh
    unfold enter_plugin_memory verify_data_files_exist
    rw [htgt, hu', hh']
    dsimp only
    unfold verify_data_files_exist_remote
    rw [hls]
    dsimp only
    rw [if_neg (fun hall => by
      have hx := List.all_eq_true.mp hall mt hmem
      rw [hcont] at hx
      cases hx)]

theorem C4_memory_missing_file_witness :
    (((Rrdtool.new "/inp").target = Target.Local
        ∧ ∃ mt ∈ [MemoryType.Cached],
            (Env.mk (fun _ => false) (fun _ => none)).fileExists
              (pathJoin (pathJoin (Rrdtool.new "/inp").input_dir "memory") mt.to_filename)
              = false)
      ∨ ((Rrdtool.new "/inp").target = Target.Remote
          ∧ (Rrdtool.new "/inp").username.isSome ∧ (Rrdtool.new "/inp").hostname.isSome
          ∧ ∃ files, (Env.mk (fun _ => false) (fun _ => none)).remoteLs
                (pathJoin (Rrdtool.new "/inp").input_dir "memory") = some files
              ∧ ∃ mt ∈ [MemoryType.Cached], files.contains mt.to_filename = false))
    ∧ ∃ msg, enter_plugin_memory (Rrdtool.new "/inp")
          (Env.mk (fun _ => false) (fun _ => none)) [MemoryType.Cached]
        = (Rrdtool.new "/inp", .err msg) :=
  ⟨Or.inl ⟨by decide, MemoryType.Cached, by decide, rfl⟩,
    C4_memory_missing_file (Rrdtool.new "/inp") (Env.mk (fun _ => false) (fun _ => none))
      [MemoryType.Cached] (Or.inl ⟨by decide, MemoryType.Cached, by decide, rfl⟩)⟩

theorem mem_to_string_tok (mt : MemoryType) : firstWord? mt.to_string = some mt.to_string := by
  cases mt <;> decide

theorem mem_to_filename_eq (mt : MemoryType) :
    mt.to_filename = "memory-" ++ mt.to_string ++ ".rrd" := by
  cases mt <;> rfl

theorem def_local_eq (un path : String) :
    build_graph_def Target.Local un path = "DEF:" ++ un ++ "=" ++ path ++ ":value:AVERAGE" := by
  apply (string_eq_iff_data _ _).mpr
  have e : ("" : String).data = [] := rfl
  simp [build_graph_def, String.data_append, e]

theorem line5_eq (un legend color : String) :
    build_graph_line un legend color 5
      = "LINE5:" ++ un ++ color ++ ":\"" ++ legend ++ "\"" := rfl

theorem memPushAll_single (dir : String) :
    ∀ (memory_types : List MemoryType) (i : Nat) (acc : List String),
      i + memory_types.length ≤ COLORS.length →
      memPushAll ⟨Target.Local, [acc]⟩ dir memory_types i
        = some ⟨Target.Local, [acc ++ expectedMemoryArgs dir memory_types i]⟩ := by
  intro memory_types
  induction memory_types with
  | nil => intro i acc h; simp [memPushAll, expectedMemoryArgs]
  | cons mt rest ih =>
    intro i acc h
    have hi : i < COLORS.length := by
      simp only [List.length_cons] at h
      omega
    unfold memPushAll
    rw [List.getElem?_eq_getElem hi]
    dsimp only
    rw [push_eq_some _ _ _ _ _ _ (mem_to_string_tok mt)]
    dsimp only
    have hsl : (([acc] : List (List String)).dropLast ++
        [(([acc] : List (List String)).getLast?.getD []) ++
          [build_graph_def Target.Local mt.to_string (pathJoin dir mt.to_filename),
           build_graph_line mt.to_string mt.to_string COLORS[i] 5]])
        = [acc ++ [build_graph_def Target.Local mt.to_string (pathJoin dir mt.to_filename),
                   build_graph_line mt.to_string mt.to_string COLORS[i] 5]] := by simp
    rw [hsl, ih (i + 1) _ (by simp only [List.length_cons] at h; omega)]
    have hc : COLORS[i]?.getD "" = COLORS[i] := by
      rw [List.getElem?_eq_getElem hi]
      rfl
    simp [expectedMemoryArgs, List.append_assoc, def_local_eq, line5_eq,
      mem_to_filename_eq, hc]

/-- C8: a Memory run from an empty local accumulator whose backing files
all exist produces exactly one slot holding, in list order, the literal
pair DEF:(c)=(path)/memory/memory-(c).rrd:value:AVERAGE and
LINE5:(c)(color at palette index i):"(c)" for each category c. -/
theorem C8_memory_single_slot (rrd : Rrdtool) (env : Env) (memory_types : List MemoryType)
    (htgt : rrd.target = Target.Local)
    (hga : rrd.graph_args = ⟨Target.Local, []⟩)
    (hlen : memory_types.length ≤ COLORS.length)
    (hex : ∀ mt ∈ memory_types,
      env.fileExists (pathJoin (pathJoin rrd.input_dir "memory") mt.to_filename) = true) :
    enter_plugin_memory rrd env memory_types
      = ({ rrd with graph_args :=
            ⟨Target.Local,
             [expectedMemoryArgs (pathJoin rrd.input_dir "memory") memory_types 0]⟩ },
         .ok ()) := by
  unfold enter_plugin_memory verify_data_files_exist
  rw [htgt]
  dsimp only
  unfold verify_data_files_exist_local
  rw [if_pos (List.all_eq_true.mpr hex)]
  have hng : rrd.graph_args.new_graph = ⟨Target.Local, [[]]⟩ := by
    rw [GraphArguments.new_graph, hga]
    simp
  rw [hng, memPushAll_single _ _ 0 _ (by omega)]
  dsimp only
  simp

theorem C8_memory_single_slot_witness :
    ((Rrdtool.new "/inp").target = Target.Local
      ∧ (Rrdtool.new "/inp").graph_args = ⟨Target.Local, []⟩
      ∧ ([MemoryType.Cached, MemoryType.Free] : List MemoryType).length ≤ COLORS.length
      ∧ ∀ mt ∈ ([MemoryType.Cached, MemoryType.Free] : List MemoryType),
          (Env.mk (fun _ => true) (fun _ => none)).fileExists
            (pathJoin (pathJoin (Rrdtool.new "/inp").input_dir "memory") mt.to_filename)
            = true)
    ∧ enter_plugin_memory (Rrdtool.new "/inp") (Env.mk (fun _ => true) (fun _ => none))
        [MemoryType.Cached, MemoryType.Free]
      = ({ Rrdtool.new "/inp" with graph_args :=
            ⟨Target.Local,
             [expectedMemoryArgs (pathJoin (Rrdtool.new "/inp").input_dir "memory")
               [MemoryType.Cached, MemoryType.Free] 0]⟩ },
         .ok ()) :=
  ⟨⟨by decide, by decide, by decide, by decide⟩,
    C8_memory_single_slot (Rrdtool.new "/inp") (Env.mk (fun _ => true) (fun _ => none))
      [MemoryType.Cached, MemoryType.Free] (by decide) (by decide) (by decide) (by decide)⟩

theorem splitAtLastSeq2_none (a b : Char) : ∀ (l : List Char), b ∉ l.drop 1 →
    splitAtLastSeq2 a b l = none := by
  intro l
  induction l with
  | nil => intro h; rfl
  | cons x rest ih =>
    intro h
    cases rest with
    | nil => rfl
    | cons y rest2 =>
      have hdrop : b ∉ (y :: rest2 : List Char) := by simpa using h
      simp only [splitAtLastSeq2]
      rw [ih (fun hb => hdrop (List.mem_cons_of_mem y hb))]
      rw [if_neg]
      rintro ⟨h1, h2⟩
      subst h2
      exact hdrop (List.mem_cons_self _ _)

theorem splitAtLastSeq2_concat (a b : Char) : ∀ (pre post : List Char), b ∉ post →
    splitAtLastSeq2 a b (pre ++ a :: b :: post) = some (pre, post) := by
  intro pre
  induction pre with
  | nil =>
    intro post h
    simp only [List.nil_append, splitAtLastSeq2]
    rw [splitAtLastSeq2_none a b (b :: post) (by simpa using h)]
    simp
  | cons x pre' ih =>
    intro post h
    obtain ⟨y, rest, he⟩ : ∃ y rest, pre' ++ a :: b :: post = y :: rest := by
      cases pre' <;> exact ⟨_, _, rfl⟩
    show splitAtLastSeq2 a b (x :: (pre' ++ a :: b :: post)) = some (x :: pre', post)
    rw [he]
    simp only [splitAtLastSeq2]
    rw [← he, ih post h]

theorem toDigitsCore_digits (fuel : Nat) : ∀ (n : Nat) (ds : List Char),
    (∀ c ∈ ds, c.isDigit = true) →
    ∀ c ∈ Nat.toDigitsCore 10 fuel n ds, c.isDigit = true := by
  induction fuel with
  | zero =>
    intro n ds hds c hc
    exact hds c (by simpa [Nat.toDigitsCore] using hc)
  | succ fuel ih =>
    intro n ds hds c hc
    have hdigit : (Nat.digitChar (n % 10)).isDigit = true := by
      have h10 : n % 10 < 10 := Nat.mod_lt _ (by norm_num)
      generalize hm : n % 10 = m at h10 ⊢
      interval_cases m <;> decide
    rw [Nat.toDigitsCore] at hc
    split at hc
    · rcases List.mem_cons.mp hc with h1 | h1
      · rw [h1]; exact hdigit
      · exact hds c h1
    · refine ih (n / 10) _ (fun d hd => ?_) c hc
      rcases List.mem_cons.mp hd with h1 | h1
      · rw [h1]; exact hdigit
      · exact hds d h1

theorem repr_digits (n : Nat) : ∀ c ∈ (Nat.repr n).toList, c.isDigit = true := by
  intro c hc
  have he : (Nat.repr n).toList = Nat.toDigitsCore 10 (n + 1) n [] := rfl
  rw [he] at hc
  exact toDigitsCore_digits (n + 1) n [] (fun d hd => absurd hd (List.not_mem_nil d)) c hc

theorem toDigitsCore_ne_nil : ∀ (fuel n : Nat) (ds : List Char),
    (1 ≤ fuel ∨ ds ≠ []) → Nat.toDigitsCore 10 fuel n ds ≠ [] := by
  intro fuel
  induction fuel with
  | zero =>
    intro n ds h
    rcases h with h | h
    · omega
    · simpa [Nat.toDigitsCore] using h
  | succ fuel ih =>
    intro n ds _
    rw [Nat.toDigitsCore]
    split
    · simp
    · exact ih (n / 10) _ (Or.inr (by simp))

theorem repr_toList_ne_nil (n : Nat) : (Nat.repr n).toList ≠ [] := by
  have he : (Nat.repr n).toList = Nat.toDigitsCore 10 (n + 1) n [] := rfl
  rw [he]
  exact toDigitsCore_ne_nil (n + 1) n [] (Or.inl (by omega))

theorem parseDefName_of (w : String) (tail : List Char) (h : '=' ∉ w.toList) :
    ∀ s : String, s.toList = 'D' :: 'E' :: 'F' :: ':' :: (w.toList ++ '=' :: tail) →
      parseDefName s = some w := by
  intro s hs
  unfold parseDefName
  rw [hs]
  have htake : List.take 4 ('D' :: 'E' :: 'F' :: ':' :: (w.toList ++ '=' :: tail))
      = ['D', 'E', 'F', ':'] := rfl
  rw [if_pos htake]
  show (let rest := (w.toList ++ '=' :: tail);
    let name := rest.takeWhile (fun c => c != '=');
    if name.length < rest.length then some (⟨name⟩ : String) else none) = some w
  dsimp only
  rw [takeWhile_middle _ _ _ _
    (fun c hc => by simp only [bne_iff_ne, ne_eq]; rintro rfl; exact h hc) (by simp)]
  rw [if_pos (by simp only [List.length_append, List.length_cons]; omega)]
  rfl

theorem parseLineArgs_of (ts : List Char) (w color legend : String)
    (hts2 : ∀ c ∈ ts, (c != ':') = true)
    (hwhash : '#' ∉ w.toList)
    (hlq : '"' ∉ legend.toList) (hch : ∃ ctl, color.toList = '#' :: ctl) :
    ∀ s : String, s.toList
        = 'L' :: 'I' :: 'N' :: 'E'
          :: (ts ++ ':' :: (w.toList ++ color.toList
              ++ ':' :: '"' :: (legend.toList ++ ['"']))) →
      parseLineArgs s = some (⟨ts⟩, w, color, legend) := by
  intro s hs
  unfold parseLineArgs
  rw [hs]
  have htake : List.take 4 ('L' :: 'I' :: 'N' :: 'E'
        :: (ts ++ ':' :: (w.toList ++ color.toList
            ++ ':' :: '"' :: (legend.toList ++ ['"']))))
      = ['L', 'I', 'N', 'E'] := rfl
  rw [if_pos htake]
  show (let rest := ts ++ ':' :: (w.toList ++ color.toList
          ++ ':' :: '"' :: (legend.toList ++ ['"']));
    let tstr := rest.takeWhile (fun c => c != ':');
    match rest.drop tstr.length with
    | c :: rest2 =>
      if c = ':' then
        match rest2.getLast? with
        | some q =>
          if q = '"' then
            match splitAtLastSeq2 ':' '"' rest2.dropLast with
            | some (nc, legend) =>
              let name := nc.takeWhile (fun c => c != '#')
              some ((⟨tstr⟩ : String), (⟨name⟩ : String),
                (⟨nc.drop name.length⟩ : String), (⟨legend⟩ : String))
            | none => none
          else none
        | none => none
      else none
    | [] => none) = some (⟨ts⟩, w, color, legend)
  dsimp only
  rw [takeWhile_middle _ _ _ _ hts2 (by simp)]
  rw [List.drop_left]
  dsimp only
  rw [if_pos rfl]
  have hR : w.toList ++ color.toList ++ ':' :: '"' :: (legend.toList ++ ['"'])
      = (w.toList ++ color.toList ++ ':' :: '"' :: legend.toList) ++ ['"'] := by
    simp [List.append_assoc]
  rw [hR, List.getLast?_concat, List.dropLast_concat]
  dsimp only
  rw [if_pos rfl]
  rw [splitAtLastSeq2_concat ':' '"' (w.toList ++ color.toList) legend.toList hlq]
  dsimp only
  obtain ⟨ctl, hctl⟩ := hch
  rw [hctl]
  rw [takeWhile_middle _ _ _ _
    (fun c hc => by simp only [bne_iff_ne, ne_eq]; rintro rfl; exact hwhash hc) (by simp)]
  rw [List.drop_left, ← hctl]
  rfl

/-- C9 counterexample: two different (legendName, color) inputs sharing
the first token produce the identical generated DEF/LINE pair, so exact
recovery of the original color and legend from the generated text is
impossible in general; the spec-modelled re-parser indeed returns the
other preimage for one of them. -/
theorem C9_roundtrip_counterexample :
    (("a :\"a", "#") ≠ (("a", "#:\"a ") : String × String))
    ∧ firstWord? "a" = some "a"
    ∧ firstWord? "a :\"a" = some "a"
    ∧ build_graph_line "a" "a" "#:\"a " 3 = build_graph_line "a" "a :\"a" "#" 3
    ∧ build_graph_def Target.Local "a" "/p.rrd" = build_graph_def Target.Local "a" "/p.rrd"
    ∧ parseLineArgs (build_graph_line "a" "a :\"a" "#" 3)
        ≠ some (Nat.repr 3, "a", "#", "a :\"a") :=
  ⟨by decide, by decide, by decide, by decide, rfl, by decide⟩

/-- C9: re-parsing a generated DEF/LINE pair (parsers modelled from the
spec, since the repository has no parser) recovers the symbolic name (the
first token of the legend), the color, the thickness text, and the full
legend, for inputs whose token contains no equals, hash or quote, whose
color is a hash-led token without quotes, and whose legend contains no
quote — as all palette colors and process names do. -/
theorem C9_roundtrip (t : Target) (legend color path w : String) (th : Nat)
    (hw : firstWord? legend = some w)
    (hweq : '=' ∉ w.toList) (hwhash : '#' ∉ w.toList)
    (hlq : '"' ∉ legend.toList)
    (hch : ∃ ctl, color.toList = '#' :: ctl) :
    parseDefName (build_graph_def t w path) = some w
    ∧ parseLineArgs (build_graph_line w legend color th)
        = some (Nat.repr th, w, color, legend) := by
  have e1 : ("DEF:" : String).data = ['D', 'E', 'F', ':'] := rfl
  have e2 : ("=" : String).data = ['='] := rfl
  have e3 : ("" : String).data = [] := rfl
  have e4 : ("\"" : String).data = ['"'] := rfl
  have e5 : (":value:AVERAGE" : String).data = [':', 'v', 'a', 'l', 'u', 'e', ':',
    'A', 'V', 'E', 'R', 'A', 'G', 'E'] := rfl
  have e6 : ("LINE" : String).data = ['L', 'I', 'N', 'E'] := rfl
  have e7 : (":" : String).data = [':'] := rfl
  have e8 : (":\"" : String).data = [':', '"'] := rfl
  constructor
  · cases t
    · apply parseDefName_of w
        (path.toList ++ [':', 'v', 'a', 'l', 'u', 'e', ':', 'A', 'V', 'E', 'R', 'A', 'G', 'E'])
        hweq
      show (build_graph_def Target.Local w path).data = _
      simp [build_graph_def, String.data_append, e1, e2, e3, e5]
    · apply parseDefName_of w
        ('"' :: (path.toList ++ '"'
          :: [':', 'v', 'a', 'l', 'u', 'e', ':', 'A', 'V', 'E', 'R', 'A', 'G', 'E'])) hweq
      show (build_graph_def Target.Remote w path).data = _
      simp [build_graph_def, String.data_append, e1, e2, e4, e5]
  · have happ := parseLineArgs_of (Nat.repr th).toList w color legend
      (fun c hc => by
        simp only [bne_iff_ne, ne_eq]
        rintro rfl
        have hd := repr_digits th ':' hc
        simp at hd)
      hwhash hlq hch (build_graph_line w legend color th)
      (by
        show (build_graph_line w legend color th).data = _
        simp [build_graph_line, String.data_append, e6, e7, e8, e4])
    exact happ

theorem C9_roundtrip_witness :
    (firstWord? "rust language server" = some "rust"
      ∧ '=' ∉ "rust".toList ∧ '#' ∉ "rust".toList
      ∧ '"' ∉ "rust language server".toList
      ∧ ∃ ctl, "#e6194b".toList = '#' :: ctl)
    ∧ parseDefName (build_graph_def Target.Local "rust"
        "/inp/processes-rust language server/ps_rss.rrd") = some "rust"
    ∧ parseLineArgs (build_graph_line "rust" "rust language server" "#e6194b" 3)
        = some (Nat.repr 3, "rust", "#e6194b", "rust language server") :=
  ⟨⟨by decide, by decide, by decide, by decide, ⟨"e6194b".toList, by decide⟩⟩,
    C9_roundtrip Target.Local "rust language server" "#e6194b"
      "/inp/processes-rust language server/ps_rss.rrd" "rust" 3 (by decide) (by decide)
      (by decide) (by decide) ⟨"e6194b".toList, by decide⟩⟩

end CGG
